import Mathlib

/-!
Verification of the access-control and project-membership core of the
course-todo backend.

The Go source is embedded shallowly: each SQL statement of the repository
layer becomes a pure function on an explicit relational state `Db`, and each
use-case orchestrator becomes a function composing those store operations.
Machine-generated ids (UUIDs) are abstracted as `Nat`; timestamps as `Int`
(a `time.Time` zero value, `IsZero`, is `Option.none`).

Sources embedded here:
  - db/migrations/000001__create_tables.up.sql (tables, UNIQUE(project_id, user_id))
  - internal/infrastructure/repository/task/task.go (task store)
  - the note store with the membership join (the copy wired by the app:
    its queries join todo.project_member; the app router exposes
    GetNotesByProject and the note repository tests exercise exactly these
    queries)
  - the project store (CreateProject transaction, CheckProjectAccess,
    AddProjectMember, RemoveProjectMember, DeleteProject, UpdateProject)
  - internal/usecase/project/project.go and internal/usecase/task/task.go
  - the transport error mapper HandleError
  - the task validation with length bounds (the copy matching its test file)
  - the auth repository GetUserByEmail / GetUserByEmailOrLogin
-/

namespace CourseTodo

/-- Role of a project member: the role column is constrained to
the two values owner and member. -/
inductive Role
  | owner
  | member
deriving DecidableEq

/-- A row of todo.project (created_at omitted: never consulted by the logic). -/
structure ProjectRow where
  id : Nat
  name : String
  description : String
  ownerID : Nat
deriving DecidableEq

/-- A row of todo.project_member (row id and joined_at omitted: never
consulted by the access-control logic). -/
structure MemberRow where
  projectID : Nat
  userID : Nat
  role : Role
deriving DecidableEq

/-- A row of todo.task. `userID` is the creator. -/
structure TaskRow where
  id : Nat
  projectID : Nat
  userID : Nat
  title : String
  description : String
  importance : Int
  status : String
  deadline : Int
deriving DecidableEq

/-- A row of todo.note. `userID` is the creator. -/
structure NoteRow where
  id : Nat
  projectID : Nat
  userID : Nat
  name : String
  description : String
deriving DecidableEq

/-- A row of todo.user (password hash omitted). -/
structure UserRow where
  id : Nat
  login : String
  username : String
  email : String
deriving DecidableEq

/-- The relational state reachable through the repository layer. -/
structure Db where
  projects : List ProjectRow
  members : List MemberRow
  tasks : List TaskRow
  notes : List NoteRow
  users : List UserRow
deriving DecidableEq

def emptyDb : Db := ⟨[], [], [], [], []⟩

/-- The error kinds of internal/models/errs plus the raw database sentinels
that the stores surface without translation. `sqlNoRows` is database/sql
ErrNoRows (not the errs.ErrNotFound kind); `infra` stands for any opaque
store failure. -/
inductive Err
  | notFound
  | noAccess
  | notOwner
  | ownerCannotLeave
  | invalidID
  | duplicateKey
  | sqlNoRows
  | infra
deriving DecidableEq

/-- Whether an Except result is a success. -/
def exceptIsOk {α : Type} : Except Err α → Bool
  | .ok _ => true
  | .error _ => false

/-! ## The membership subquery and its specification-level meaning -/

/-- Literal embedding of the subquery
SELECT pm.project_id FROM todo.project_member pm WHERE pm.user_id = $u. -/
def memberProjectIDs (db : Db) (u : Nat) : List Nat :=
  (db.members.filter (fun m => m.userID == u)).map (fun m => m.projectID)

/-- The IN clause `project_id IN (subquery)` used by every task and note
mutation predicate. -/
def inMemberProjects (db : Db) (u pid : Nat) : Bool :=
  (memberProjectIDs db u).contains pid

/-- Specification-level membership: some ProjectMember row (p, u) exists,
regardless of role. -/
def IsProjectMember (db : Db) (p u : Nat) : Prop :=
  ∃ m ∈ db.members, m.projectID = p ∧ m.userID = u

instance (db : Db) (p u : Nat) : Decidable (IsProjectMember db p u) := by
  unfold IsProjectMember
  exact List.decidableBEx _ db.members

/-! ## Task store (internal/infrastructure/repository/task/task.go) -/

/-- The WHERE predicate shared by UpdateTaskQuery, UpdateTaskStatusQuery and
DeleteTaskQuery: `id = $tid AND project_id IN (memberships of $u)`. -/
def taskWherePred (db : Db) (taskID userID : Nat) (t : TaskRow) : Bool :=
  t.id == taskID && inMemberProjects db userID t.projectID

/-- The SET clause of UpdateTaskQuery. -/
def taskSetClause (title descr : String) (importance deadline : Int) (t : TaskRow) : TaskRow :=
  { t with title := title, description := descr, importance := importance, deadline := deadline }

/-- TaskRepository.UpdateTask: executes UpdateTaskQuery and ignores the
rows-affected count, returning nil unless the statement itself fails. -/
def updateTask (db : Db) (title descr : String) (importance : Int) (deadline : Int)
    (taskID userID : Nat) : Except Err Unit × Db :=
  (Except.ok (),
   { db with tasks := db.tasks.map (fun t =>
       if taskWherePred db taskID userID t then taskSetClause title descr importance deadline t
       else t) })

/-- TaskRepository.UpdateTaskStatus: same shape, sets only status, and also
ignores the rows-affected count. -/
def updateTaskStatus (db : Db) (status : String) (taskID userID : Nat) :
    Except Err Unit × Db :=
  (Except.ok (),
   { db with tasks := db.tasks.map (fun t =>
       if taskWherePred db taskID userID t then { t with status := status } else t) })

/-- TaskExistenceForUserQuery: EXISTS over the task joined with the
membership table. -/
def taskExistsForUser (db : Db) (taskID userID : Nat) : Bool :=
  db.tasks.any (fun t => t.id == taskID && inMemberProjects db userID t.projectID)

/-- TaskRepository.DeleteTask: pre-checks existence through the membership
join; on a miss returns the wrapped database/sql ErrNoRows sentinel,
otherwise runs DeleteTaskQuery. -/
def deleteTask (db : Db) (taskID userID : Nat) : Except Err Unit × Db :=
  if taskExistsForUser db taskID userID then
    (Except.ok (),
     { db with tasks := db.tasks.filter (fun t => !(taskWherePred db taskID userID t)) })
  else
    (Except.error Err.sqlNoRows, db)

/-! ## Note store (the membership-scoped note repository wired by the app) -/

/-- The WHERE predicate of updateNoteQuery:
`id = $1 AND project_id = $2 AND project_id IN (memberships of $3)`. -/
def noteUpdatePred (db : Db) (noteID projectID userID : Nat) (n : NoteRow) : Bool :=
  n.id == noteID && n.projectID == projectID && inMemberProjects db userID n.projectID

/-- The WHERE predicate of deleteNoteQuery:
`id = $1 AND project_id IN (memberships of $2)`. -/
def noteDeletePred (db : Db) (noteID userID : Nat) (n : NoteRow) : Bool :=
  n.id == noteID && inMemberProjects db userID n.projectID

/-- NoteRepository.UpdateNote: executes updateNoteQuery and translates a zero
rows-affected count into errs.ErrNotFound. -/
def updateNote (db : Db) (userID noteID projectID : Nat) (name descr : String) :
    Except Err Unit × Db :=
  if db.notes.countP (fun n => noteUpdatePred db noteID projectID userID n) = 0 then
    (Except.error Err.notFound, db)
  else
    (Except.ok (),
     { db with notes := db.notes.map (fun n =>
         if noteUpdatePred db noteID projectID userID n then
           { n with name := name, description := descr }
         else n) })

/-- NoteRepository.DeleteNote: executes deleteNoteQuery and translates a zero
rows-affected count into errs.ErrNotFound. -/
def deleteNote (db : Db) (userID noteID : Nat) : Except Err Unit × Db :=
  if db.notes.countP (fun n => noteDeletePred db noteID userID n) = 0 then
    (Except.error Err.notFound, db)
  else
    (Except.ok (),
     { db with notes := db.notes.filter (fun n => !(noteDeletePred db noteID userID n)) })

/-! ## Project store (the project repository) -/

/-- ProjectRepository.GetProjectByID: first row by id, sql.ErrNoRows is
translated to errs.ErrNotFound. -/
def getProjectByID (db : Db) (p : Nat) : Except Err ProjectRow :=
  match db.projects.find? (fun pr => pr.id == p) with
  | some pr => Except.ok pr
  | none => Except.error Err.notFound

/-- queryCheckProjectAccess: SELECT COUNT(*) over project_member rows
matching (projectID, userID); the repository returns count > 0. -/
def checkProjectAccess (db : Db) (p u : Nat) : Bool :=
  0 < db.members.countP (fun m => m.projectID == p && m.userID == u)

/-- ProjectRepository.CheckProjectAccess including the store-failure channel:
errors arise only from the underlying query failing. -/
def checkProjectAccessR (db : Db) (p u : Nat) (storeOk : Bool) : Except Err Bool :=
  if storeOk then Except.ok (checkProjectAccess db p u) else Except.error Err.infra

/-- queryAddProjectMember under the UNIQUE(project_id, user_id) constraint:
a duplicate pair makes the INSERT fail. -/
def insertMemberRow (db : Db) (p u : Nat) (r : Role) : Except Err Unit × Db :=
  if db.members.any (fun m => m.projectID == p && m.userID == u) then
    (Except.error Err.duplicateKey, db)
  else
    (Except.ok (), { db with members := db.members ++ [⟨p, u, r⟩] })

/-- ProjectRepository.AddProjectMember: always inserts with role member. -/
def addProjectMember (db : Db) (p u : Nat) : Except Err Unit × Db :=
  insertMemberRow db p u Role.member

/-- The WHERE predicate of queryRemoveProjectMember:
`project_id = $1 AND user_id = $2 AND role != owner`. -/
def removeMemberPred (p u : Nat) (m : MemberRow) : Bool :=
  m.projectID == p && m.userID == u && !(m.role == Role.owner)

/-- ProjectRepository.RemoveProjectMember: runs queryRemoveProjectMember and
translates zero rows affected into errs.ErrNotFound. -/
def removeProjectMember (db : Db) (p u : Nat) : Except Err Unit × Db :=
  if db.members.countP (fun m => removeMemberPred p u m) = 0 then
    (Except.error Err.notFound, db)
  else
    (Except.ok (), { db with members := db.members.filter (fun m => !(removeMemberPred p u m)) })

/-- ProjectRepository.DeleteProject: DELETE scoped by `id = $1 AND
owner_id = $2`; zero rows affected becomes errs.ErrNotFound. -/
def deleteProjectRepo (db : Db) (p ownerID : Nat) : Except Err Unit × Db :=
  if db.projects.countP (fun pr => pr.id == p && pr.ownerID == ownerID) = 0 then
    (Except.error Err.notFound, db)
  else
    (Except.ok (),
     { db with projects := db.projects.filter (fun pr => !(pr.id == p && pr.ownerID == ownerID)) })

/-- ProjectRepository.UpdateProject: UPDATE scoped by `id = $1 AND
owner_id = $4`; zero rows affected becomes errs.ErrNotFound. -/
def updateProjectRepo (db : Db) (p : Nat) (name descr : String) (ownerID : Nat) :
    Except Err Unit × Db :=
  if db.projects.countP (fun pr => pr.id == p && pr.ownerID == ownerID) = 0 then
    (Except.error Err.notFound, db)
  else
    (Except.ok (),
     { db with projects := db.projects.map (fun pr =>
         if pr.id == p && pr.ownerID == ownerID then
           { pr with name := name, description := descr }
         else pr) })

/-! ## Project creation transaction -/

/-- A database transaction: writes go to `view`; rollback restores `base`,
commit publishes `view`. -/
structure Tx where
  base : Db
  view : Db

def beginTx (db : Db) : Tx := ⟨db, db⟩

def txRollback (tx : Tx) : Db := tx.base

def txCommit (tx : Tx) : Db := tx.view

/-- ProjectRepository.CreateProject: BeginTx, INSERT the project row, INSERT
the owner membership row with role owner, Commit; the deferred Rollback
discards both writes if any step fails. `projectInsertOk` and
`memberInsertOk` model infrastructure failure of the two statements; the
member INSERT also fails on a UNIQUE(project_id, user_id) violation. -/
def createProject (db : Db) (pid : Nat) (name descr : String) (ownerID : Nat)
    (projectInsertOk memberInsertOk : Bool) : Except Err Unit × Db :=
  let tx := beginTx db
  if !projectInsertOk then (Except.error Err.infra, txRollback tx)
  else
    let tx1 : Tx :=
      { tx with view := { tx.view with projects := tx.view.projects ++ [⟨pid, name, descr, ownerID⟩] } }
    if !memberInsertOk
        || tx1.view.members.any (fun m => m.projectID == pid && m.userID == ownerID) then
      (Except.error Err.infra, txRollback tx1)
    else
      let tx2 : Tx :=
        { tx1 with view := { tx1.view with members := tx1.view.members ++ [⟨pid, ownerID, Role.owner⟩] } }
      (Except.ok (), txCommit tx2)

/-! ## Use-case orchestrators (internal/usecase/project/project.go) -/

/-- ProjectUsecase.GetProjectByID: CheckProjectAccess first; false becomes
errs.ErrNoAccess; only then the project row is fetched. -/
def ucGetProjectByID (db : Db) (u p : Nat) : Except Err ProjectRow :=
  if !(checkProjectAccess db p u) then Except.error Err.noAccess
  else getProjectByID db p

/-- ProjectUsecase.UpdateProject: fetches the project, compares OwnerID with
the principal, returns errs.ErrNotOwner on mismatch, otherwise updates and
re-reads. -/
def ucUpdateProject (db : Db) (u p : Nat) (name descr : String) :
    Except Err ProjectRow × Db :=
  match getProjectByID db p with
  | Except.error e => (Except.error e, db)
  | Except.ok proj =>
    if proj.ownerID ≠ u then (Except.error Err.notOwner, db)
    else
      match updateProjectRepo db p name descr u with
      | (Except.error e, db1) => (Except.error e, db1)
      | (Except.ok _, db1) =>
        match getProjectByID db1 p with
        | Except.error e => (Except.error e, db1)
        | Except.ok proj1 => (Except.ok proj1, db1)

/-- ProjectUsecase.DeleteProject: no use-case-level ownership check; it
delegates directly to the owner-scoped DELETE. -/
def ucDeleteProject (db : Db) (u p : Nat) : Except Err Unit × Db :=
  deleteProjectRepo db p u

/-- ProjectUsecase.AddProjectMember: fetches the project, requires the
principal to be the owner, then inserts the target with role member. -/
def ucAddProjectMember (db : Db) (u p target : Nat) : Except Err Unit × Db :=
  match getProjectByID db p with
  | Except.error e => (Except.error e, db)
  | Except.ok proj =>
    if proj.ownerID ≠ u then (Except.error Err.notOwner, db)
    else addProjectMember db p target

/-- ProjectUsecase.RemoveProjectMember: same ownership gate, then the
role-guarded DELETE. -/
def ucRemoveProjectMember (db : Db) (u p target : Nat) : Except Err Unit × Db :=
  match getProjectByID db p with
  | Except.error e => (Except.error e, db)
  | Except.ok proj =>
    if proj.ownerID ≠ u then (Except.error Err.notOwner, db)
    else removeProjectMember db p target

/-- Modelled from the spec: the LeaveProject use-case body is not among the
source files (only its transport handler, its route registration and the
ErrOwnerCannotLeave sentinel are). Spec section 4.1: the leaving principal
removes themselves and the call must fail with an OwnerCannotLeave condition
if the principal is the project owner; the self-removal goes through the
role-guarded member DELETE. -/
def ucLeaveProject (db : Db) (u p : Nat) : Except Err Unit × Db :=
  match getProjectByID db p with
  | Except.error e => (Except.error e, db)
  | Except.ok proj =>
    if proj.ownerID = u then (Except.error Err.ownerCannotLeave, db)
    else removeProjectMember db p u

/-! ## Transport error mapper (HandleError) -/

/-- HandleError: the errors.Is switch over the error kinds, in source order;
a nil error (none) falls to the default 500 branch. -/
def handleError : Option Err → Nat
  | some Err.noAccess => 403
  | some Err.notOwner => 403
  | some Err.notFound => 404
  | some Err.invalidID => 400
  | _ => 500

/-! ## Task input validation (the ValidationTask with length bounds) -/

/-- ValidationTask: empty-title check, 2..100 length bound, importance 1..3,
and a deadline check performed only when the deadline is present (a zero
time.Time, IsZero, is none here). Returns the error message, none on
acceptance. -/
def validationTask (title : String) (importance : Int) (deadline : Option Int)
    (now : Int) : Option String :=
  if title = "" then some "title is required"
  else if title.length < 2 || title.length > 100 then
    some "title must be between 2 and 100 characters"
  else if importance < 1 || importance > 3 then
    some "importance must be between 1 and 3"
  else
    match deadline with
    | some d => if d < now then some "deadline must be in the future" else none
    | none => none

/-! ## Auth repository (GetUserByEmail, GetUserByEmailOrLogin) -/

/-- AuthRepository.GetUserByEmail: sql.ErrNoRows becomes (nil, nil) — a nil
user with a nil error. -/
def getUserByEmail (db : Db) (email : String) : Except Err (Option UserRow) :=
  match db.users.find? (fun u => u.email == email) with
  | some u => Except.ok (some u)
  | none => Except.ok none

/-- AuthRepository.GetUserByEmailOrLogin: `WHERE email = $1 or login = $1`;
sql.ErrNoRows becomes (nil, nil). -/
def getUserByEmailOrLogin (db : Db) (key : String) : Except Err (Option UserRow) :=
  match db.users.find? (fun u => u.email == key || u.login == key) with
  | some u => Except.ok (some u)
  | none => Except.ok none

/-! ## Specification-level predicates and sample stores -/

/-- The canonical owner membership row of a project. -/
def ownerRow (p : ProjectRow) : MemberRow := ⟨p.id, p.ownerID, Role.owner⟩

/-- All owner-role membership rows of a given project. -/
def ownerRowsFor (db : Db) (p : ProjectRow) : List MemberRow :=
  db.members.filter (fun m => m.projectID == p.id && m.role == Role.owner)

/-- Exactly one owner-role row per stored project, and it names the stored
project owner. -/
def OwnerInvariant (db : Db) : Prop :=
  ∀ p ∈ db.projects, ownerRowsFor db p = [ownerRow p]

/-- The freshly generated project id is unused: no stored project carries it
and, by foreign-key integrity, no membership row references it. -/
def FreshProjectID (db : Db) (pid : Nat) : Prop :=
  (∀ pr ∈ db.projects, pr.id ≠ pid) ∧ (∀ m ∈ db.members, m.projectID ≠ pid)

/-- States reachable from the empty store through project creation and the
member add, remove and leave operations. -/
inductive Reachable : Db → Prop
  | init : Reachable emptyDb
  | create (db : Db) (caller pid : Nat) (name descr : String)
      (h : Reachable db) (hfresh : FreshProjectID db pid) :
      Reachable (createProject db pid name descr caller true true).2
  | add (db : Db) (caller p target : Nat) (h : Reachable db) :
      Reachable (ucAddProjectMember db caller p target).2
  | remove (db : Db) (caller p target : Nat) (h : Reachable db) :
      Reachable (ucRemoveProjectMember db caller p target).2
  | leave (db : Db) (caller p : Nat) (h : Reachable db) :
      Reachable (ucLeaveProject db caller p).2

/-- Pointwise description of the owner-scoped project UPDATE. -/
def projectSetClause (p u : Nat) (name descr : String) (pr : ProjectRow) : ProjectRow :=
  if pr.id == p && pr.ownerID == u then { pr with name := name, description := descr } else pr

/-- Concrete store state: task 1 lives in project 5, whose only member is
user 10; user 9 holds no membership anywhere. -/
def c2Db : Db :=
  { projects := [⟨5, "p", "", 10⟩]
    members := [⟨5, 10, Role.owner⟩]
    tasks := [⟨1, 5, 10, "t", "", 1, "waiting", 100⟩]
    notes := []
    users := [] }

/-- The store after: user 10 creates project 1, adds user 20 as member, and
user 20 then leaves. -/
def c3Db : Db :=
  (ucLeaveProject (ucAddProjectMember (createProject emptyDb 1 "" "" 10 true true).2 10 1 20).2 20 1).2

/-- Concrete store state: project 1 is owned by user 10; user 20 is a plain
member of it. -/
def c4Db : Db :=
  { projects := [⟨1, "", "", 10⟩]
    members := [⟨1, 10, Role.owner⟩, ⟨1, 20, Role.member⟩]
    tasks := []
    notes := []
    users := [] }

/-- Concrete store for the leave scenario: project 1 owned by 10 with plain
member 20. -/
def c5Db : Db :=
  { projects := [⟨1, "", "", 10⟩]
    members := [⟨1, 10, Role.owner⟩, ⟨1, 20, Role.member⟩]
    tasks := []
    notes := []
    users := [] }

/-! ## The IN-subquery is exactly role-blind membership -/

theorem inMemberProjects_iff (db : Db) (u p : Nat) :
    inMemberProjects db u p = true ↔ IsProjectMember db p u := by
  simp only [inMemberProjects, memberProjectIDs, IsProjectMember, List.contains_eq_any_beq,
    List.any_eq_true, List.mem_map, List.mem_filter, beq_iff_eq]
  constructor
  · rintro ⟨x, ⟨m, ⟨hm, hmu⟩, hmx⟩, hxp⟩
    exact ⟨m, hm, by omega, hmu⟩
  · rintro ⟨m, hm, hmp, hmu⟩
    exact ⟨p, ⟨m, ⟨hm, hmu⟩, hmp⟩, rfl⟩

theorem taskWherePred_iff (db : Db) (tid u : Nat) (t : TaskRow) :
    taskWherePred db tid u t = true ↔ (t.id = tid ∧ IsProjectMember db t.projectID u) := by
  simp only [taskWherePred, Bool.and_eq_true, beq_iff_eq, inMemberProjects_iff]

theorem noteDeletePred_iff (db : Db) (nid u : Nat) (n : NoteRow) :
    noteDeletePred db nid u n = true ↔ (n.id = nid ∧ IsProjectMember db n.projectID u) := by
  simp only [noteDeletePred, Bool.and_eq_true, beq_iff_eq, inMemberProjects_iff]

theorem noteUpdatePred_iff (db : Db) (nid pid u : Nat) (n : NoteRow) :
    noteUpdatePred db nid pid u n = true
      ↔ (n.id = nid ∧ n.projectID = pid ∧ IsProjectMember db n.projectID u) := by
  simp only [noteUpdatePred, Bool.and_eq_true, beq_iff_eq, inMemberProjects_iff, and_assoc]

/-! ## C1: mutation scope is exactly project membership -/

/-- Claim C1: every task mutation (full update, status-only update, delete) and
every note mutation (update, delete) is scoped by the membership join: the
conditional write touches a row exactly when the row is the addressed one
and the caller holds a ProjectMember row for the project that owns the row,
regardless of role; the row creator never enters the predicate, so any
member of a shared project can update or delete any task or note of that
project. For the note update the statement also carries the project id sent
in the request body, which must name the project of the note. -/
theorem membership_scoped_mutations (db : Db) (u tid nid pid : Nat)
    (ttl ds nm nds st : String) (imp dl : Int) :
    ((updateTask db ttl ds imp dl tid u).2.tasks
        = db.tasks.map (fun t =>
            if t.id = tid ∧ IsProjectMember db t.projectID u then taskSetClause ttl ds imp dl t
            else t))
    ∧ ((updateTaskStatus db st tid u).2.tasks
        = db.tasks.map (fun t =>
            if t.id = tid ∧ IsProjectMember db t.projectID u then { t with status := st }
            else t))
    ∧ ((deleteTask db tid u).2.tasks
        = db.tasks.filter (fun t => !(decide (t.id = tid ∧ IsProjectMember db t.projectID u))))
    ∧ ((updateNote db u nid pid nm nds).2.notes
        = db.notes.map (fun n =>
            if n.id = nid ∧ n.projectID = pid ∧ IsProjectMember db n.projectID u then
              { n with name := nm, description := nds }
            else n))
    ∧ ((deleteNote db u nid).2.notes
        = db.notes.filter (fun n => !(decide (n.id = nid ∧ IsProjectMember db n.projectID u))))
    ∧ (∀ (t : TaskRow) (c : Nat),
        taskWherePred db tid u { t with userID := c } = taskWherePred db tid u t)
    ∧ (∀ (n : NoteRow) (c : Nat),
        noteDeletePred db nid u { n with userID := c } = noteDeletePred db nid u n)
    ∧ (∀ (n : NoteRow) (c : Nat),
        noteUpdatePred db nid pid u { n with userID := c } = noteUpdatePred db nid pid u n) := by
  have htask : ∀ t : TaskRow,
      taskWherePred db tid u t
        = decide (t.id = tid ∧ IsProjectMember db t.projectID u) := by
    intro t
    rw [Bool.eq_iff_iff, taskWherePred_iff, decide_eq_true_iff]
  have hnoted : ∀ n : NoteRow,
      noteDeletePred db nid u n
        = decide (n.id = nid ∧ IsProjectMember db n.projectID u) := by
    intro n
    rw [Bool.eq_iff_iff, noteDeletePred_iff, decide_eq_true_iff]
  have hnoteu : ∀ n : NoteRow,
      noteUpdatePred db nid pid u n
        = decide (n.id = nid ∧ n.projectID = pid ∧ IsProjectMember db n.projectID u) := by
    intro n
    rw [Bool.eq_iff_iff, noteUpdatePred_iff, decide_eq_true_iff]
  refine ⟨?_, ?_, ?_, ?_, ?_, ?_, ?_, ?_⟩
  · refine List.map_congr_left fun t _ => ?_
    rw [htask t]
    simp only [decide_eq_true_eq]
  · refine List.map_congr_left fun t _ => ?_
    rw [htask t]
    simp only [decide_eq_true_eq]
  · unfold deleteTask
    by_cases h : taskExistsForUser db tid u = true
    · simp only [h, if_true]
      refine List.filter_congr fun t _ => ?_
      rw [htask t]
    · simp only [Bool.not_eq_true] at h
      simp only [h, Bool.false_eq_true, if_false]
      refine (List.filter_eq_self.mpr fun t ht => ?_).symm
      have hall := List.any_eq_false.mp h t ht
      simp only [taskExistsForUser] at hall
      have : taskWherePred db tid u t = false := by
        by_contra hc
        exact hall (by simpa [taskWherePred] using Bool.not_eq_false _ |>.mp hc)
      rw [htask t] at this
      simp [this]
  · unfold updateNote
    by_cases h : db.notes.countP (fun n => noteUpdatePred db nid pid u n) = 0
    · simp only [h, if_true]
      symm
      refine (List.map_congr_left fun n hn => ?_).trans (List.map_id _)
      have hz := List.countP_eq_zero.mp h n hn
      rw [hnoteu n] at hz
      simp only [decide_eq_true_eq] at hz
      simp [hz]
    · simp only [h, if_false]
      refine List.map_congr_left fun n _ => ?_
      rw [hnoteu n]
      simp only [decide_eq_true_eq]
  · unfold deleteNote
    by_cases h : db.notes.countP (fun n => noteDeletePred db nid u n) = 0
    · simp only [h, if_true]
      refine (List.filter_eq_self.mpr fun n hn => ?_).symm
      have := List.countP_eq_zero.mp h n hn
      simp only [Bool.not_eq_true] at this
      rw [hnoted n] at this
      simp [this]
    · simp only [h, if_false]
      refine List.filter_congr fun n _ => ?_
      rw [hnoted n]
  · intro t c
    simp [taskWherePred]
  · intro n c
    simp [noteDeletePred]
  · intro n c
    simp [noteUpdatePred]

/-! ## C2: zero rows affected on task update is silently reported as success -/

/-- Claim C2 (evaluation at the failing input): TaskRepository.UpdateTask and
UpdateTaskStatus invoked by non-member user 9 on task 1 match zero rows,
yet both return success and leave the store unchanged, while the membership
check confirms user 9 is no member of project 5; DeleteTask does report the
miss, but with the raw database sql.ErrNoRows sentinel rather than with the
errs.ErrNotFound kind. -/
theorem task_update_zero_rows_reports_success :
    (updateTask c2Db "x" "y" 2 200 1 9).1 = Except.ok ()
    ∧ (updateTask c2Db "x" "y" 2 200 1 9).2 = c2Db
    ∧ (updateTaskStatus c2Db "completed" 1 9).1 = Except.ok ()
    ∧ (updateTaskStatus c2Db "completed" 1 9).2 = c2Db
    ∧ checkProjectAccess c2Db 5 9 = false
    ∧ (deleteTask c2Db 1 9).1 = Except.error Err.sqlNoRows
    ∧ (updateNote c2Db 9 1 5 "a" "b").1 = Except.error Err.notFound
    ∧ (deleteNote c2Db 9 1).1 = Except.error Err.notFound := by
  exact ⟨rfl, rfl, rfl, rfl, rfl, rfl, rfl, rfl⟩

/-! ## C8: the transport error mapper -/

/-- Claim C8 (evaluation at the failing input): HandleError carries no case for
ErrOwnerCannotLeave, so that kind falls through to the default branch and is
written as 500, although the handler test suite expects 403 for it; every
other kind keeps its fixed status code, and a nil error yields 500. -/
theorem handleError_drops_owner_cannot_leave :
    handleError (some Err.ownerCannotLeave) = 500
    ∧ handleError (some Err.noAccess) = 403
    ∧ handleError (some Err.notOwner) = 403
    ∧ handleError (some Err.notFound) = 404
    ∧ handleError (some Err.invalidID) = 400
    ∧ handleError (some Err.infra) = 500
    ∧ handleError none = 500 := by
  exact ⟨rfl, rfl, rfl, rfl, rfl, rfl, rfl⟩

/-! ## C9: task input validation -/

/-- Claim C9: ValidationTask accepts an input exactly when the title length lies
within the 2..100 bound (which forces it to be non-empty), the importance
lies in 1..3, and the deadline, when present, is not in the past at
validation time; every rejected input carries a validation error message. -/
theorem validationTask_accepts_iff (title : String) (importance : Int)
    (deadline : Option Int) (now : Int) :
    validationTask title importance deadline now = none
      ↔ (2 ≤ title.length ∧ title.length ≤ 100
         ∧ 1 ≤ importance ∧ importance ≤ 3
         ∧ ∀ d ∈ deadline, now ≤ d) := by
  unfold validationTask
  by_cases h0 : title = ""
  · subst h0
    simp
  · simp only [h0, if_false]
    by_cases h1 : (title.length < 2 || title.length > 100) = true
    · simp only [h1, if_true]
      simp only [Bool.or_eq_true, decide_eq_true_eq] at h1
      simp only [reduceCtorEq, false_iff]
      omega
    · simp only [h1, Bool.false_eq_true, if_false]
      simp only [Bool.or_eq_true, decide_eq_true_eq, not_or, Nat.not_lt, Nat.not_gt_eq] at h1
      by_cases h2 : (importance < 1 || importance > 3) = true
      · simp only [h2, if_true]
        simp only [Bool.or_eq_true, decide_eq_true_eq] at h2
        simp only [reduceCtorEq, false_iff]
        omega
      · simp only [h2, Bool.false_eq_true, if_false]
        simp only [Bool.or_eq_true, decide_eq_true_eq, not_or, Int.not_lt] at h2
        cases deadline with
        | none =>
          simp only [Option.mem_def, reduceCtorEq, false_implies, implies_true, and_true]
          constructor
          · intro _
            exact ⟨h1.1, h1.2, h2.1, h2.2⟩
          · intro _
            trivial
        | some d =>
          by_cases h3 : d < now
          · simp only [h3, if_true, reduceCtorEq, false_iff]
            intro hcon
            have := hcon.2.2.2.2 d rfl
            omega
          · simp only [h3, if_false, true_iff]
            refine ⟨h1.1, h1.2, h2.1, h2.2, ?_⟩
            intro x hx
            simp only [Option.mem_def, Option.some.injEq] at hx
            omega

/-! ## C10: absent user is (nil, nil), not an error -/

/-- Claim C10: when no stored user matches the email (or the email-or-login key),
GetUserByEmail and GetUserByEmailOrLogin return a nil user together with a
nil error. -/
theorem absent_user_gives_nil_nil (db : Db) (key : String) :
    ((∀ u ∈ db.users, u.email ≠ key) → getUserByEmail db key = Except.ok none)
    ∧ ((∀ u ∈ db.users, u.email ≠ key ∧ u.login ≠ key) →
        getUserByEmailOrLogin db key = Except.ok none) := by
  constructor
  · intro h
    unfold getUserByEmail
    have hnone : db.users.find? (fun u => u.email == key) = none :=
      List.find?_eq_none.mpr fun u hu => by simpa using h u hu
    rw [hnone]
  · intro h
    unfold getUserByEmailOrLogin
    have hnone : db.users.find? (fun u => u.email == key || u.login == key) = none :=
      List.find?_eq_none.mpr fun u hu => by
        have hu2 := h u hu
        simp [hu2.1, hu2.2]
    rw [hnone]

/-- Claim C10 witness: with no stored users at all, both lookups on the key a
return a nil user and a nil error. -/
theorem absent_user_gives_nil_nil_witness :
    getUserByEmail emptyDb "a" = Except.ok none
    ∧ getUserByEmailOrLogin emptyDb "a" = Except.ok none := by
  refine ⟨(absent_user_gives_nil_nil emptyDb "a").1 ?_, (absent_user_gives_nil_nil emptyDb "a").2 ?_⟩
  · intro u hu
    simp [emptyDb] at hu
  · intro u hu
    simp [emptyDb] at hu

/-! ## C7: the membership check and its gate -/

/-- Claim C7: CheckProjectAccess answers true exactly when some ProjectMember row
(p, u) exists, with the role never consulted; when no such row exists the
repository returns false with a nil error (an error can only come from the
underlying store failing); and the membership-gated read GetProjectByID
turns the false answer into the NoAccess kind. -/
theorem membership_check_correct (db : Db) (p u : Nat) :
    (checkProjectAccess db p u = true ↔ IsProjectMember db p u)
    ∧ (¬ IsProjectMember db p u → checkProjectAccessR db p u true = Except.ok false)
    ∧ (checkProjectAccess db p u = false → ucGetProjectByID db u p = Except.error Err.noAccess) := by
  have hiff : checkProjectAccess db p u = true ↔ IsProjectMember db p u := by
    unfold checkProjectAccess IsProjectMember
    rw [decide_eq_true_iff, List.countP_pos_iff]
    constructor
    · rintro ⟨m, hm, hpred⟩
      simp only [Bool.and_eq_true, beq_iff_eq] at hpred
      exact ⟨m, hm, hpred.1, hpred.2⟩
    · rintro ⟨m, hm, h1, h2⟩
      exact ⟨m, hm, by simp [h1, h2]⟩
  refine ⟨hiff, ?_, ?_⟩
  · intro hno
    unfold checkProjectAccessR
    have : checkProjectAccess db p u = false := by
      cases hc : checkProjectAccess db p u
      · rfl
      · exact absurd (hiff.mp hc) hno
    simp [this]
  · intro hfalse
    unfold ucGetProjectByID
    simp [hfalse]

/-- Claim C7 witness: in the store where project 1 has the single member 10, the
check answers true for user 10, answers false with a nil error for the
stranger 9, and the gated read fails for 9 with NoAccess. -/
theorem membership_check_correct_witness :
    checkProjectAccess ⟨[⟨1, "", "", 10⟩], [⟨1, 10, Role.owner⟩], [], [], []⟩ 1 10 = true
    ∧ checkProjectAccessR ⟨[⟨1, "", "", 10⟩], [⟨1, 10, Role.owner⟩], [], [], []⟩ 1 9 true
        = Except.ok false
    ∧ ucGetProjectByID ⟨[⟨1, "", "", 10⟩], [⟨1, 10, Role.owner⟩], [], [], []⟩ 9 1
        = Except.error Err.noAccess := by
  refine ⟨?_, ?_, ?_⟩
  · exact (membership_check_correct ⟨[⟨1, "", "", 10⟩], [⟨1, 10, Role.owner⟩], [], [], []⟩ 1 10).1.mpr
      ⟨⟨1, 10, Role.owner⟩, by simp, rfl, rfl⟩
  · exact (membership_check_correct ⟨[⟨1, "", "", 10⟩], [⟨1, 10, Role.owner⟩], [], [], []⟩ 1 9).2.1
      (by decide)
  · exact (membership_check_correct ⟨[⟨1, "", "", 10⟩], [⟨1, 10, Role.owner⟩], [], [], []⟩ 1 9).2.2
      (by decide)

/-! ## C6: project creation is all-or-nothing -/

/-- Claim C6: CreateProject runs both inserts inside one transaction: whenever any
step before commit fails (either statement failing, or the membership insert
hitting the uniqueness constraint) the returned state is exactly the
starting state, and on success both the project row and the owner-role
membership row are present. -/
theorem create_project_atomic (db : Db) (pid : Nat) (name descr : String)
    (ownerID : Nat) (ok1 ok2 : Bool) :
    (exceptIsOk (createProject db pid name descr ownerID ok1 ok2).1 = false →
      (createProject db pid name descr ownerID ok1 ok2).2 = db)
    ∧ (exceptIsOk (createProject db pid name descr ownerID ok1 ok2).1 = true →
      (⟨pid, name, descr, ownerID⟩ : ProjectRow)
          ∈ (createProject db pid name descr ownerID ok1 ok2).2.projects
        ∧ (⟨pid, ownerID, Role.owner⟩ : MemberRow)
          ∈ (createProject db pid name descr ownerID ok1 ok2).2.members) := by
  unfold createProject beginTx txRollback txCommit
  cases ok1 with
  | false => simp [exceptIsOk]
  | true =>
    simp only [Bool.not_true, Bool.false_eq_true, if_false]
    by_cases hdup : (db.members.any (fun m => m.projectID == pid && m.userID == ownerID)) = true
    · simp [hdup, exceptIsOk]
    · simp only [Bool.not_eq_true] at hdup
      cases ok2 with
      | false => simp [hdup, exceptIsOk]
      | true =>
        simp [hdup, exceptIsOk]

/-- Claim C6 witness: with a failing membership insert the store is returned
unchanged, and with both statements succeeding the project row and its
owner membership row are both present. -/
theorem create_project_atomic_witness :
    (createProject emptyDb 1 "n" "d" 7 true false).2 = emptyDb
    ∧ (⟨1, "n", "d", 7⟩ : ProjectRow) ∈ (createProject emptyDb 1 "n" "d" 7 true true).2.projects
    ∧ (⟨1, 7, Role.owner⟩ : MemberRow) ∈ (createProject emptyDb 1 "n" "d" 7 true true).2.members := by
  refine ⟨(create_project_atomic emptyDb 1 "n" "d" 7 true false).1 rfl, ?_⟩
  exact (create_project_atomic emptyDb 1 "n" "d" 7 true true).2 rfl

/-! ## C4: project update and delete for non-owners -/

/-- Claim C4 (counterexample): user 20 is a member but not the owner of project 1,
and DeleteProject invoked by 20 fails with the NotFound kind, not with the
NotOwner kind the claim requires; the project is left unchanged. -/
theorem delete_project_nonowner_not_notowner :
    IsProjectMember c4Db 1 20
    ∧ (∀ pr ∈ c4Db.projects, pr.ownerID ≠ 20)
    ∧ (ucDeleteProject c4Db 20 1).1 = Except.error Err.notFound
    ∧ Err.notFound ≠ Err.notOwner
    ∧ (ucDeleteProject c4Db 20 1).2 = c4Db := by
  refine ⟨?_, ?_, rfl, ?_, rfl⟩
  · exact ⟨⟨1, 20, Role.member⟩, by simp [c4Db], rfl, rfl⟩
  · decide
  · decide

theorem projectSetClause_id (p u : Nat) (name descr : String) (pr : ProjectRow) :
    (projectSetClause p u name descr pr).id = pr.id := by
  unfold projectSetClause
  by_cases h : (pr.id == p && pr.ownerID == u) = true
  · simp [h]
  · simp only [Bool.not_eq_true] at h
    simp [h]

/-- Claim C4 (amended): UpdateProject rejects every non-owner with the NotOwner
kind and leaves the store untouched; DeleteProject carries no use-case-level
ownership check and instead scopes the DELETE by owner id, so for a
non-owner (or an absent project) it fails with the NotFound kind and leaves
the store untouched; each of the two succeeds exactly when the principal is
the stored owner of an existing project with that id. -/
theorem project_admin_requires_ownership (db : Db) (u p : Nat) (name descr : String) :
    (∀ proj, getProjectByID db p = Except.ok proj → proj.ownerID ≠ u →
        ucUpdateProject db u p name descr = (Except.error Err.notOwner, db))
    ∧ ((∀ pr ∈ db.projects, pr.id = p → pr.ownerID ≠ u) →
        ucDeleteProject db u p = (Except.error Err.notFound, db))
    ∧ (exceptIsOk (ucDeleteProject db u p).1 = true
        ↔ ∃ pr ∈ db.projects, pr.id = p ∧ pr.ownerID = u)
    ∧ (exceptIsOk (ucUpdateProject db u p name descr).1 = true
        ↔ ∃ proj, getProjectByID db p = Except.ok proj ∧ proj.ownerID = u) := by
  have hdel : exceptIsOk (ucDeleteProject db u p).1 = true
      ↔ ∃ pr ∈ db.projects, pr.id = p ∧ pr.ownerID = u := by
    unfold ucDeleteProject deleteProjectRepo
    by_cases h : db.projects.countP (fun pr => pr.id == p && pr.ownerID == u) = 0
    · simp only [h, if_true, exceptIsOk, Bool.false_eq_true, false_iff]
      rintro ⟨pr, hmem, h1, h2⟩
      have := List.countP_eq_zero.mp h pr hmem
      simp [h1, h2] at this
    · simp only [h, if_false, exceptIsOk, true_iff]
      have hpos : 0 < db.projects.countP (fun pr => pr.id == p && pr.ownerID == u) :=
        Nat.pos_of_ne_zero h
      obtain ⟨pr, hmem, hpr⟩ := List.countP_pos_iff.mp hpos
      simp only [Bool.and_eq_true, beq_iff_eq] at hpr
      exact ⟨pr, hmem, hpr.1, hpr.2⟩
  refine ⟨?_, ?_, hdel, ?_⟩
  · intro proj hok hne
    unfold ucUpdateProject
    rw [hok]
    simp [hne]
  · intro h
    unfold ucDeleteProject deleteProjectRepo
    have hz : db.projects.countP (fun pr => pr.id == p && pr.ownerID == u) = 0 := by
      refine List.countP_eq_zero.mpr fun pr hmem => ?_
      simp only [Bool.and_eq_true, beq_iff_eq, not_and]
      intro h1
      exact h pr hmem h1
    simp [hz]
  · constructor
    · intro hok
      unfold ucUpdateProject at hok
      cases hfind : getProjectByID db p with
      | error e =>
        rw [hfind] at hok
        simp [exceptIsOk] at hok
      | ok proj =>
        rw [hfind] at hok
        by_cases howner : proj.ownerID = u
        · exact ⟨proj, rfl, howner⟩
        · simp only [howner, ne_eq, not_false_eq_true, if_true, exceptIsOk] at hok
          exact absurd hok Bool.false_ne_true
    · rintro ⟨proj, hok, howner⟩
      unfold ucUpdateProject
      rw [hok]
      simp only [howner, ne_eq, not_true_eq_false, if_false]
      unfold getProjectByID at hok
      have hfind : db.projects.find? (fun pr => pr.id == p) = some proj := by
        cases hf : db.projects.find? (fun pr => pr.id == p) with
        | none =>
          rw [hf] at hok
          exact absurd hok (by simp)
        | some q =>
          rw [hf] at hok
          simp only [Except.ok.injEq] at hok
          rw [hok]
      have hmem : proj ∈ db.projects := List.mem_of_find?_eq_some hfind
      have hid : (proj.id == p) = true := by
        have h1 := List.find?_some hfind
        simpa using h1
      have hpred : (proj.id == p && proj.ownerID == u) = true := by
        simp only [Bool.and_eq_true, beq_iff_eq] at hid ⊢
        exact ⟨hid, howner⟩
      have hcnt : db.projects.countP (fun pr => pr.id == p && pr.ownerID == u) ≠ 0 := by
        have : 0 < db.projects.countP (fun pr => pr.id == p && pr.ownerID == u) :=
          List.countP_pos_iff.mpr ⟨proj, hmem, hpred⟩
        omega
      unfold updateProjectRepo
      simp only [hcnt, if_false]
      unfold getProjectByID
      have hfun : (fun pr : ProjectRow =>
          if pr.id == p && pr.ownerID == u then { pr with name := name, description := descr }
          else pr) = projectSetClause p u name descr := by
        funext pr
        rfl
      rw [hfun]
      have hgm : (db.projects.map (projectSetClause p u name descr)).find? (fun pr => pr.id == p)
          = (db.projects.find? (fun pr =>
              (projectSetClause p u name descr pr).id == p)).map
                (projectSetClause p u name descr) :=
        List.find?_map _ _
      have hsame : (fun pr : ProjectRow => (projectSetClause p u name descr pr).id == p)
          = (fun pr : ProjectRow => pr.id == p) := by
        funext pr
        rw [projectSetClause_id]
      rw [hgm, hsame, hfind]
      simp [exceptIsOk]

/-- Claim C4 witness: the plain member 20 updating project 1 gets NotOwner with
the store unchanged, deleting it gets NotFound with the store unchanged,
and the owner 10 can delete it. -/
theorem project_admin_requires_ownership_witness :
    ucUpdateProject c4Db 20 1 "n" "d" = (Except.error Err.notOwner, c4Db)
    ∧ ucDeleteProject c4Db 20 1 = (Except.error Err.notFound, c4Db)
    ∧ exceptIsOk (ucDeleteProject c4Db 10 1).1 = true := by
  refine ⟨?_, ?_, ?_⟩
  · exact (project_admin_requires_ownership c4Db 20 1 "n" "d").1 ⟨1, "", "", 10⟩ rfl (by decide)
  · exact (project_admin_requires_ownership c4Db 20 1 "n" "d").2.1 (by decide)
  · exact (project_admin_requires_ownership c4Db 10 1 "n" "d").2.2.1.mpr
      ⟨⟨1, "", "", 10⟩, by simp [c4Db], rfl, rfl⟩

/-! ## C5: leaving a project -/

/-- Claim C5: LeaveProject invoked by the stored owner of the project always fails
with the OwnerCannotLeave kind and changes nothing; invoked by a non-owner
member it always succeeds and removes exactly the membership rows of that
member for the project, through the role-guarded member DELETE. -/
theorem leave_project_correct (db : Db) (u p : Nat) (proj : ProjectRow)
    (hproj : getProjectByID db p = Except.ok proj) :
    (proj.ownerID = u → ucLeaveProject db u p = (Except.error Err.ownerCannotLeave, db))
    ∧ (proj.ownerID ≠ u →
        (∃ m ∈ db.members, m.projectID = p ∧ m.userID = u ∧ m.role = Role.member) →
        (ucLeaveProject db u p).1 = Except.ok ()
        ∧ ∀ m : MemberRow,
            m ∈ (ucLeaveProject db u p).2.members
              ↔ (m ∈ db.members ∧ ¬(m.projectID = p ∧ m.userID = u ∧ m.role ≠ Role.owner))) := by
  constructor
  · intro howner
    unfold ucLeaveProject
    rw [hproj]
    simp [howner]
  · intro howner hrow
    unfold ucLeaveProject
    rw [hproj]
    simp only [howner, if_false]
    obtain ⟨m0, hm0, hm0p, hm0u, hm0r⟩ := hrow
    have hm0pred : removeMemberPred p u m0 = true := by
      unfold removeMemberPred
      simp [hm0p, hm0u, hm0r]
    have hcnt : db.members.countP (fun m => removeMemberPred p u m) ≠ 0 := by
      have : 0 < db.members.countP (fun m => removeMemberPred p u m) :=
        List.countP_pos_iff.mpr ⟨m0, hm0, hm0pred⟩
      omega
    unfold removeProjectMember
    simp only [hcnt, if_false]
    refine ⟨trivial, fun m => ?_⟩
    rw [List.mem_filter]
    have hpred : removeMemberPred p u m = true
        ↔ (m.projectID = p ∧ m.userID = u ∧ m.role ≠ Role.owner) := by
      unfold removeMemberPred
      simp only [Bool.and_eq_true, beq_iff_eq, Bool.not_eq_true', beq_eq_false_iff_ne, ne_eq,
        and_assoc]
    constructor
    · rintro ⟨hm, hf⟩
      refine ⟨hm, fun hcon => ?_⟩
      rw [Bool.not_eq_true'] at hf
      have hf2 : ¬(removeMemberPred p u m = true) := by
        rw [hf]
        exact Bool.false_ne_true
      exact hf2 (hpred.mpr hcon)
    · rintro ⟨hm, hncon⟩
      refine ⟨hm, ?_⟩
      rw [Bool.not_eq_true']
      cases hcase : removeMemberPred p u m
      · rfl
      · exact absurd (hpred.mp hcase) hncon

/-- Claim C5 witness: owner 10 cannot leave project 1, while member 20 leaves
successfully and only the owner row survives among rows of project 1. -/
theorem leave_project_correct_witness :
    ucLeaveProject c5Db 10 1 = (Except.error Err.ownerCannotLeave, c5Db)
    ∧ (ucLeaveProject c5Db 20 1).1 = Except.ok ()
    ∧ ((⟨1, 20, Role.member⟩ : MemberRow) ∉ (ucLeaveProject c5Db 20 1).2.members
        ∧ (⟨1, 10, Role.owner⟩ : MemberRow) ∈ (ucLeaveProject c5Db 20 1).2.members) := by
  have h10 := leave_project_correct c5Db 10 1 ⟨1, "", "", 10⟩ rfl
  have h20 := (leave_project_correct c5Db 20 1 ⟨1, "", "", 10⟩ rfl).2 (by decide)
    ⟨⟨1, 20, Role.member⟩, by simp [c5Db], rfl, rfl, rfl⟩
  refine ⟨h10.1 rfl, h20.1, ?_, ?_⟩
  · intro hmem
    have := (h20.2 ⟨1, 20, Role.member⟩).mp hmem
    simp at this
  · exact (h20.2 ⟨1, 10, Role.owner⟩).mpr ⟨by simp [c5Db], by simp⟩

/-! ## C3: the single-owner invariant -/

theorem filter_filter_of_imp {α : Type} (p q : α → Bool) (l : List α)
    (h : ∀ a, p a = true → q a = true) : (l.filter q).filter p = l.filter p := by
  induction l with
  | nil => rfl
  | cons a l ih =>
    by_cases hp : p a = true
    · have hq := h a hp
      simp [List.filter_cons, hq, hp, ih]
    · by_cases hq : q a = true
      · simp [List.filter_cons, hq, hp, ih]
      · simp only [Bool.not_eq_true] at hp hq
        simp [List.filter_cons, hq, hp, ih]

theorem createProject_fresh (db : Db) (pid : Nat) (nm ds : String) (ownerID : Nat)
    (hfresh : ∀ m ∈ db.members, m.projectID ≠ pid) :
    (createProject db pid nm ds ownerID true true).2
      = { db with projects := db.projects ++ [⟨pid, nm, ds, ownerID⟩],
                  members := db.members ++ [⟨pid, ownerID, Role.owner⟩] } := by
  unfold createProject beginTx txCommit
  have hdup : (db.members.any (fun m => m.projectID == pid && m.userID == ownerID)) = false := by
    rw [List.any_eq_false]
    intro m hm
    simp only [Bool.and_eq_true, beq_iff_eq, not_and]
    intro h1
    exact absurd h1 (hfresh m hm)
  simp [hdup]

theorem invariant_create (db : Db) (pid : Nat) (nm ds : String) (ownerID : Nat)
    (h : OwnerInvariant db) (hfresh : FreshProjectID db pid) :
    OwnerInvariant (createProject db pid nm ds ownerID true true).2 := by
  rw [createProject_fresh db pid nm ds ownerID hfresh.2]
  intro pr hpr
  rw [List.mem_append] at hpr
  show (db.members ++ [(⟨pid, ownerID, Role.owner⟩ : MemberRow)]).filter
      (fun m => m.projectID == pr.id && m.role == Role.owner) = [ownerRow pr]
  rw [List.filter_append]
  cases hpr with
  | inl hold =>
    have hne : pr.id ≠ pid := hfresh.1 pr hold
    have hnew : ([⟨pid, ownerID, Role.owner⟩] : List MemberRow).filter
        (fun m => m.projectID == pr.id && m.role == Role.owner) = [] := by
      rw [List.filter_eq_nil_iff]
      intro m hm
      rw [List.mem_singleton] at hm
      subst hm
      simp only [Bool.and_eq_true, beq_iff_eq, not_and]
      intro h1
      exact absurd h1.symm hne
    rw [hnew, List.append_nil]
    exact h pr hold
  | inr hnewp =>
    rw [List.mem_singleton] at hnewp
    subst hnewp
    have hold0 : db.members.filter (fun m => m.projectID == pid && m.role == Role.owner) = [] := by
      rw [List.filter_eq_nil_iff]
      intro m hm
      simp only [Bool.and_eq_true, beq_iff_eq, not_and]
      intro h1
      exact absurd h1 (hfresh.2 m hm)
    simpa [ownerRow] using hold0

theorem invariant_insert_member (db : Db) (q t : Nat) (h : OwnerInvariant db) :
    OwnerInvariant { db with members := db.members ++ [⟨q, t, Role.member⟩] } := by
  intro pr hpr
  show (db.members ++ [(⟨q, t, Role.member⟩ : MemberRow)]).filter
      (fun m => m.projectID == pr.id && m.role == Role.owner) = [ownerRow pr]
  rw [List.filter_append]
  have hnew : ([⟨q, t, Role.member⟩] : List MemberRow).filter
      (fun m => m.projectID == pr.id && m.role == Role.owner) = [] := by
    rw [List.filter_eq_nil_iff]
    intro m hm
    rw [List.mem_singleton] at hm
    subst hm
    simp
  rw [hnew, List.append_nil]
  exact h pr hpr

theorem invariant_remove_filter (db : Db) (p x : Nat) (h : OwnerInvariant db) :
    OwnerInvariant { db with members := db.members.filter (fun m => !(removeMemberPred p x m)) } := by
  intro pr hpr
  show (db.members.filter (fun m => !(removeMemberPred p x m))).filter
      (fun m => m.projectID == pr.id && m.role == Role.owner) = [ownerRow pr]
  rw [filter_filter_of_imp]
  · exact h pr hpr
  · intro m hm
    simp only [Bool.and_eq_true, beq_iff_eq] at hm
    unfold removeMemberPred
    rw [Bool.not_eq_true']
    simp [hm.2]

theorem removeProjectMember_snd (db : Db) (p x : Nat) :
    (removeProjectMember db p x).2 = db
    ∨ (removeProjectMember db p x).2
        = { db with members := db.members.filter (fun m => !(removeMemberPred p x m)) } := by
  unfold removeProjectMember
  by_cases h : db.members.countP (fun m => removeMemberPred p x m) = 0
  · simp [h]
  · simp [h]

theorem ucAddProjectMember_snd (db : Db) (caller p target : Nat) :
    (ucAddProjectMember db caller p target).2 = db
    ∨ (ucAddProjectMember db caller p target).2
        = { db with members := db.members ++ [⟨p, target, Role.member⟩] } := by
  unfold ucAddProjectMember addProjectMember insertMemberRow
  cases hf : getProjectByID db p with
  | error e => simp
  | ok proj =>
    by_cases how : proj.ownerID = caller
    · simp only [how, ne_eq, not_true_eq_false, if_false]
      by_cases hdup : (db.members.any (fun m => m.projectID == p && m.userID == target)) = true
      · simp [hdup]
      · simp only [Bool.not_eq_true] at hdup
        simp [hdup]
    · simp [how]

theorem ucRemoveProjectMember_snd (db : Db) (caller p target : Nat) :
    (ucRemoveProjectMember db caller p target).2 = db
    ∨ (ucRemoveProjectMember db caller p target).2
        = { db with members := db.members.filter (fun m => !(removeMemberPred p target m)) } := by
  unfold ucRemoveProjectMember
  cases hf : getProjectByID db p with
  | error e => simp
  | ok proj =>
    by_cases how : proj.ownerID = caller
    · simp only [how, ne_eq, not_true_eq_false, if_false]
      exact removeProjectMember_snd db p target
    · simp [how]

theorem ucLeaveProject_snd (db : Db) (caller p : Nat) :
    (ucLeaveProject db caller p).2 = db
    ∨ (ucLeaveProject db caller p).2
        = { db with members := db.members.filter (fun m => !(removeMemberPred p caller m)) } := by
  unfold ucLeaveProject
  cases hf : getProjectByID db p with
  | error e => simp
  | ok proj =>
    by_cases how : proj.ownerID = caller
    · simp [how]
    · simp only [how, if_false]
      exact removeProjectMember_snd db p caller

theorem owner_invariant_of_reachable : ∀ db : Db, Reachable db → OwnerInvariant db := by
  intro db h
  induction h with
  | init =>
    intro pr hpr
    simp [emptyDb] at hpr
  | create db caller pid nm ds h hfresh ih =>
    exact invariant_create db pid nm ds caller ih hfresh
  | add db caller p target h ih =>
    rcases ucAddProjectMember_snd db caller p target with heq | heq
    · rw [heq]
      exact ih
    · rw [heq]
      exact invariant_insert_member db p target ih
  | remove db caller p target h ih =>
    rcases ucRemoveProjectMember_snd db caller p target with heq | heq
    · rw [heq]
      exact ih
    · rw [heq]
      exact invariant_remove_filter db p target ih
  | leave db caller p h ih =>
    rcases ucLeaveProject_snd db caller p with heq | heq
    · rw [heq]
      exact ih
    · rw [heq]
      exact invariant_remove_filter db p caller ih

/-- Claim C3: in every state reachable from the empty store through project
creation and any sequence of member add, member remove and leave
operations, each stored project has exactly one owner-role membership row,
that row names the stored project owner; and the member-removal DELETE
never removes a row whose role is owner. -/
theorem project_owner_invariant :
    (∀ db : Db, Reachable db → OwnerInvariant db)
    ∧ (∀ (db : Db) (p x : Nat) (m : MemberRow),
        m ∈ db.members → m.role = Role.owner → m ∈ (removeProjectMember db p x).2.members) := by
  constructor
  · exact owner_invariant_of_reachable
  · intro db p x m hm hrole
    rcases removeProjectMember_snd db p x with heq | heq
    · rw [heq]
      exact hm
    · rw [heq]
      refine List.mem_filter.mpr ⟨hm, ?_⟩
      unfold removeMemberPred
      rw [Bool.not_eq_true']
      simp [hrole]

/-- Claim C3 witness: the state reached by create, add-member and leave satisfies
the single-owner invariant, and removing the owner through the member
DELETE leaves the owner row in place. -/
theorem project_owner_invariant_witness :
    OwnerInvariant c3Db
    ∧ (⟨1, 10, Role.owner⟩ : MemberRow) ∈ (removeProjectMember c3Db 1 10).2.members := by
  have hfresh : FreshProjectID emptyDb 1 := by
    constructor
    · intro pr hpr
      simp [emptyDb] at hpr
    · intro m hm
      simp [emptyDb] at hm
  have hreach : Reachable c3Db :=
    Reachable.leave _ 20 1
      (Reachable.add _ 10 1 20
        (Reachable.create emptyDb 10 1 "" "" Reachable.init hfresh))
  constructor
  · exact project_owner_invariant.1 c3Db hreach
  · refine project_owner_invariant.2 c3Db 1 10 ⟨1, 10, Role.owner⟩ ?_ rfl
    decide

end CourseTodo
